import Mathlib

/-!
Verification of the matching-and-parsing core of the checkmate repository
(`src/scripts/lib/lib.mjs`, `src/scripts/checkmate-review.mjs`,
`src/unnamed/part_001`).  The JavaScript source is shallowly embedded:
pure functions become Lean functions over `String` / `List Char`;
process effects (spawned commands, the built-in regex engine, the
built-in parser table) are passed in as explicit function arguments.
JavaScript string indices are UTF-16 code units; here they are Unicode
characters, which agrees on all inputs appearing in the claims.
-/

namespace Checkmate

/-- Characters treated as whitespace by JavaScript `trim` / `parseInt`
(the common subset; exotic Unicode spaces behave the same way here). -/
def isJsWhitespace (c : Char) : Bool :=
  c = ' ' || c = '\t' || c = '\n' || c = '\x0d' ||
  c = '\x0b' || c = '\x0c' || c = Char.ofNat 0xa0 || c = Char.ofNat 0xfeff ||
  c = Char.ofNat 0x2028 || c = Char.ofNat 0x2029

/-- Embedding of JavaScript `String.prototype.trim`. -/
def jsTrim (s : String) : String :=
  ⟨((s.toList.dropWhile isJsWhitespace).reverse.dropWhile isJsWhitespace).reverse⟩

/-- Embedding of JavaScript `String.prototype.includes` (substring test). -/
def listContainsSub (sub : List Char) : List Char → Bool
  | [] => sub.isPrefixOf []
  | c :: rest => sub.isPrefixOf (c :: rest) || listContainsSub sub rest

/-- String wrapper for `listContainsSub`. -/
def strContains (s sub : String) : Bool :=
  listContainsSub sub.toList s.toList

/-- GetSubstitution from the JavaScript `String.prototype.replace` spec,
for a regex with no capture groups: in the replacement text, `$$` is a
dollar sign, `$&` the matched text, a dollar followed by backtick the
text before the match, a dollar followed by apostrophe the text after
the match; any other `$` sequence (such as `$1` when the pattern has no
groups) stays literal. -/
def expandRepl (matched before after : List Char) : List Char → List Char
  | [] => []
  | c :: rest =>
    if c = '$' then
      match rest with
      | [] => ['$']
      | d :: rest2 =>
        if d = '$' then '$' :: expandRepl matched before after rest2
        else if d = '&' then matched ++ expandRepl matched before after rest2
        else if d = Char.ofNat 96 then before ++ expandRepl matched before after rest2
        else if d = Char.ofNat 39 then after ++ expandRepl matched before after rest2
        else '$' :: d :: expandRepl matched before after rest2
    else c :: expandRepl matched before after rest

/-- Global replacement of a literal (non-empty) pattern, left to right and
non-overlapping, applying `expandRepl` at every match; `pre` is the part
of the original string already scanned.  Fuel is structural; the wrapper
supplies enough fuel for the whole scan. -/
def jsReplaceAllAux (pat repl : List Char) : Nat → List Char → List Char → List Char
  | 0, _, s => s
  | fuel + 1, pre, s =>
    if pat ≠ [] ∧ pat.isPrefixOf s then
      expandRepl pat pre (s.drop pat.length) repl ++
        jsReplaceAllAux pat repl fuel (pre ++ pat) (s.drop pat.length)
    else
      match s with
      | [] => []
      | c :: rest => c :: jsReplaceAllAux pat repl fuel (pre ++ [c]) rest

/-- Embedding of JavaScript `str.replace(/pat/g, repl)` for a literal
pattern `pat` and a plain-string replacement `repl`. -/
def jsReplaceAll (s pat repl : String) : String :=
  ⟨jsReplaceAllAux pat.toList repl.toList (s.toList.length + 1) [] s.toList⟩

/-- First-occurrence-only variant, embedding JavaScript
`str.replace("pat", repl)` with a string (non-regex) pattern. -/
def jsReplaceFirstAux (pat repl : List Char) : Nat → List Char → List Char → List Char
  | 0, _, s => s
  | fuel + 1, pre, s =>
    if pat ≠ [] ∧ pat.isPrefixOf s then
      expandRepl pat pre (s.drop pat.length) repl ++ s.drop pat.length
    else
      match s with
      | [] => []
      | c :: rest => c :: jsReplaceFirstAux pat repl fuel (pre ++ [c]) rest

/-- String wrapper for `jsReplaceFirstAux`. -/
def jsReplaceFirst (s pat repl : String) : String :=
  ⟨jsReplaceFirstAux pat.toList repl.toList (s.toList.length + 1) [] s.toList⟩

/-- Spec-side plain replacement: every occurrence of the literal pattern
is replaced by `repl` verbatim, with no `$`-sequence expansion.  Used to
compare the source's substitution against the specification's wording. -/
def replaceAllPlainAux (pat repl : List Char) : Nat → List Char → List Char
  | 0, s => s
  | fuel + 1, s =>
    if pat ≠ [] ∧ pat.isPrefixOf s then
      repl ++ replaceAllPlainAux pat repl fuel (s.drop pat.length)
    else
      match s with
      | [] => []
      | c :: rest => c :: replaceAllPlainAux pat repl fuel rest

/-- String wrapper for `replaceAllPlainAux`. -/
def replaceAllPlain (s pat repl : String) : String :=
  ⟨replaceAllPlainAux pat.toList repl.toList (s.toList.length + 1) s.toList⟩

/-- Embedding of JavaScript `parseInt(s, 10)`; `none` models `NaN`. -/
def jsParseInt (s : String) : Option Int :=
  let cs := s.toList.dropWhile isJsWhitespace
  let signed : Int × List Char :=
    match cs with
    | c :: rest =>
      if c = '-' then (-1, rest) else if c = '+' then (1, rest) else (1, cs)
    | [] => (1, [])
  let digits := signed.2.takeWhile (fun c => c.isDigit)
  if digits.isEmpty then none
  else some (signed.1 * digits.foldl (fun acc c => acc * 10 + ((c.toNat : Int) - 48)) 0)

/-- Embedding of JavaScript `arr.slice(0, e)` (negative `e` counts from
the end, clamped at zero). -/
def jsSlice {α : Type} (xs : List α) (e : Int) : List α :=
  if 0 ≤ e then xs.take e.toNat else xs.take (xs.length - (-e).toNat)

/-- Embedding of `truncateOutput` from lib.mjs. -/
def truncateOutput (output : String) (lines : Nat) : String :=
  String.intercalate "\n" ((output.splitOn "\n").take lines)

/-- Line terminators excluded by an unflagged `.` in a JavaScript regex. -/
def isLineTerminator (c : Char) : Bool :=
  c = '\n' || c = '\x0d' || c = Char.ofNat 0x2028 || c = Char.ofNat 0x2029

/-- One atom of the regex dialect produced by the glob translation in
`matchesExcludePattern`: `.`, a (possibly negated) character class, or a
literal character. -/
inductive RAtom where
  | dot : RAtom
  | cls : Bool → List Char → RAtom
  | lit : Char → RAtom
deriving DecidableEq

/-- Satisfaction of one regex atom by one character.  A negated class
matches line terminators (as in JavaScript), while `.` does not. -/
def matchAtom : RAtom → Char → Bool
  | RAtom.dot, c => !(isLineTerminator c)
  | RAtom.cls neg set, c => if neg then !(set.contains c) else set.contains c
  | RAtom.lit l, c => l = c

/-- Read a character class body up to the closing bracket, unescaping
backslash sequences; returns the class characters and the remainder. -/
def readClass : List Char → List Char × List Char
  | [] => ([], [])
  | c :: rest =>
    if c = ']' then ([], rest)
    else if c = '\\' then
      match rest with
      | [] => ([c], [])
      | d :: rest2 =>
        let p := readClass rest2
        (d :: p.1, p.2)
    else
      let p := readClass rest
      (c :: p.1, p.2)

/-- Parse the regex source into atoms, each with a flag recording a
trailing `*` quantifier.  Covers the constructs the glob translation
emits (`.` `*` `[^/]` backslash escapes); other characters are literals. -/
def parseRegexAux : Nat → List Char → List (RAtom × Bool)
  | 0, _ => []
  | _ + 1, [] => []
  | fuel + 1, c :: rest =>
    let step : RAtom × List Char :=
      if c = '\\' then
        match rest with
        | [] => (RAtom.lit '\\', [])
        | d :: rest2 => (RAtom.lit d, rest2)
      else if c = '[' then
        match rest with
        | d :: rest2 =>
          if d = '^' then
            let p := readClass rest2
            (RAtom.cls true p.1, p.2)
          else
            let p := readClass rest
            (RAtom.cls false p.1, p.2)
        | [] => (RAtom.cls false [], [])
      else if c = '.' then (RAtom.dot, rest)
      else (RAtom.lit c, rest)
    match step.2 with
    | d :: rest2 =>
      if d = '*' then (step.1, true) :: parseRegexAux fuel rest2
      else (step.1, false) :: parseRegexAux fuel step.2
    | [] => [(step.1, false)]

/-- Fuel wrapper for `parseRegexAux`. -/
def parseRegex (s : List Char) : List (RAtom × Bool) :=
  parseRegexAux (s.length + 1) s

/-- Anchored backtracking matcher for the parsed regex (the translation
wraps the pattern in `^...$`, so only whole-string matches count). -/
def reMatchAux : Nat → List (RAtom × Bool) → List Char → Bool
  | 0, _, _ => false
  | _ + 1, [], [] => true
  | _ + 1, [], _ :: _ => false
  | _ + 1, (_, false) :: _, [] => false
  | fuel + 1, (a, false) :: rest, c :: cs => matchAtom a c && reMatchAux fuel rest cs
  | fuel + 1, (_, true) :: rest, [] => reMatchAux fuel rest []
  | fuel + 1, (a, true) :: rest, c :: cs =>
    reMatchAux fuel rest (c :: cs) || (matchAtom a c && reMatchAux fuel ((a, true) :: rest) cs)

/-- Fuel wrapper for `reMatchAux`: every step shrinks items + input. -/
def reMatch (items : List (RAtom × Bool)) (s : List Char) : Bool :=
  reMatchAux (items.length + s.length + 1) items s

/-- The glob-to-regex translation of `matchesExcludePattern` in lib.mjs:
`**` to a sentinel, `*` to `[^/]*`, sentinel to `.*`, `/` escaped. -/
def translateGlob (pattern : String) : String :=
  jsReplaceAll
    (jsReplaceAll
      (jsReplaceAll (jsReplaceAll pattern "**" "\x7b\x7bGLOBSTAR\x7d\x7d") "*" "[^/]*")
      "\x7b\x7bGLOBSTAR\x7d\x7d" ".*")
    "/" "\\/"

/-- Embedding of `matchesExcludePattern` from lib.mjs: translate the glob
to a regex and test the full relative path against it (the source
anchors the pattern with `^` and `$`; anchoring is built into
`reMatch`). -/
def matchesExcludePattern (relativePath pattern : String) : Bool :=
  reMatch (parseRegex (translateGlob pattern).toList) relativePath.toList

/-- Embedding of Node's posix `path.dirname`. -/
def dirname (p : String) : String :=
  if p = "" then "."
  else
    let cs := p.toList
    let hasRoot := cs.head? = some '/'
    let rev := (cs.drop 1).reverse
    let r := (rev.dropWhile (fun c => c = '/')).dropWhile (fun c => c ≠ '/')
    if r.length = 0 then (if hasRoot then "/" else ".")
    else if hasRoot ∧ r.length = 1 then "//"
    else ⟨cs.take r.length⟩

/-- Embedding of JavaScript `String.prototype.startsWith`. -/
def jsStartsWith (s pre : String) : Bool :=
  pre.toList.isPrefixOf s.toList

/-- Embedding of JavaScript `String.prototype.endsWith`. -/
def jsEndsWith (s suf : String) : Bool :=
  suf.toList.isSuffixOf s.toList

/-- Embedding of `fileMatchesPaths` from lib.mjs: the relative path is
under one of the environment paths (`.` matches everything; otherwise
the path or its containing directory equals the environment path or
lies strictly below it). -/
def fileMatchesPaths (relativePath : String) (paths : List String) : Bool :=
  let fileDir := dirname relativePath
  paths.any (fun envPath =>
    let normalizedEnvPath := if envPath = "." then "" else envPath
    normalizedEnvPath == "" ||
    jsStartsWith relativePath (normalizedEnvPath ++ "/") ||
    relativePath == normalizedEnvPath ||
    fileDir == normalizedEnvPath ||
    jsStartsWith fileDir (normalizedEnvPath ++ "/"))

/-- A check's parser specification: a predefined parser name, or an
inline object with a regex `pattern` and optional default `severity`. -/
inductive ParserSpec where
  | str : String → ParserSpec
  | obj : (pattern : String) → (severity : Option String) → ParserSpec
deriving DecidableEq

/-- One configured check (an entry of an environment's `checks` lists).
`maxDiagnostics` is an `Int` (JavaScript numbers; non-integer values do
not occur in the claims). -/
structure Check where
  name : String := ""
  command : String := ""
  args : List String := []
  parser : Option ParserSpec := none
  maxDiagnostics : Option Int := none
  _auto : Option Bool := none
deriving DecidableEq

/-- One environment entry.  `none` in `paths` / `exclude` / `checks`
models a missing (or non-array / non-object) field, which the source
detects with `Array.isArray` / truthiness guards; `checks` keeps the
object's insertion-ordered key-value pairs. -/
structure Env where
  name : Option String := none
  paths : Option (List String) := none
  exclude : Option (List String) := none
  checks : Option (List (String × List Check)) := none
deriving DecidableEq

/-- The loaded configuration document (the part the resolver reads). -/
structure Config where
  environments : Option (List Env) := none
deriving DecidableEq

/-- Result record of `getChecksForFile`; `pattern` and `env` are only
set for `path-excluded` results, mirroring the source's object shapes. -/
structure ResolveResult where
  checks : List Check := []
  reason : String
  pattern : Option String := none
  env : Option String := none
deriving DecidableEq

/-- Embedding of `getChecksForExtension` from lib.mjs: direct key lookup
first (any present key wins, even with an empty list), then a scan of
comma-joined keys split and trimmed. -/
def getChecksForExtension (checksConfig : Option (List (String × List Check)))
    (ext : String) : List Check :=
  match checksConfig with
  | none => []
  | some entries =>
    match entries.find? (fun e => e.1 == ext) with
    | some e => e.2
    | none =>
      match entries.find? (fun e =>
          ((e.1.splitOn ",").map (fun x => jsTrim x)).contains ext) with
      | some e => e.2
      | none => []

/-- The `env.exclude.find(...)` step of `getChecksForFile`: the first
exclude pattern matching the relative path, if the exclude list is
present and usable. -/
def matchedExcludePattern (relativePath : String) (env : Env) : Option String :=
  match env.exclude with
  | some patterns => patterns.find? (fun pattern => matchesExcludePattern relativePath pattern)
  | none => none

/-- The environment scan loop of `getChecksForFile` from lib.mjs:
first environment with a usable paths list covering the file decides;
an excluded path stops with `path-excluded` only when the environment
has checks for the extension, otherwise the scan continues. -/
def resolveEnvironments (relativePath ext : String) : List Env → ResolveResult
  | [] => { reason := "no-matching-environment" }
  | env :: rest =>
    match env.paths with
    | none => resolveEnvironments relativePath ext rest
    | some paths =>
      if fileMatchesPaths relativePath paths then
        match matchedExcludePattern relativePath env with
        | some pattern =>
          if (getChecksForExtension env.checks ext).length > 0 then
            { reason := "path-excluded", pattern := some pattern, env := env.name }
          else resolveEnvironments relativePath ext rest
        | none =>
          let checks := getChecksForExtension env.checks ext
          if checks.length > 0 then { checks := checks, reason := "ok" }
          else { reason := "no-checks-for-extension" }
      else resolveEnvironments relativePath ext rest

/-- Embedding of `getChecksForFile` from lib.mjs.  The source first
computes `ext := path.extname(filePath)` and
`relativePath := path.relative(projectRoot, filePath)` with Node's path
library (external to this core); the embedding takes those two derived
strings as inputs. -/
def getChecksForFile (config : Option Config) (relativePath ext : String) : ResolveResult :=
  match config with
  | none => { reason := "no-config" }
  | some c =>
    match c.environments with
    | none => { reason := "no-config" }
    | some envs => resolveEnvironments relativePath ext envs

/-- One normalized diagnostic.  `none` in `line` / `column` models the
JavaScript `undefined` (and the `NaN` a failed `parseInt` would store,
which no claim observes). -/
structure Diag where
  line : Option Int := none
  column : Option Int := none
  message : String := ""
  rule : Option String := none
  severity : String := "error"
  source : Option String := none
deriving DecidableEq

/-- The named capture groups of one regex match (`match.groups`): a
field is `none` when the group did not participate, `some ""` when it
captured the empty string. -/
structure Groups where
  line : Option String := none
  column : Option String := none
  message : Option String := none
  rule : Option String := none
  severity : Option String := none
deriving DecidableEq

/-- The `generic` built-in parser from lib.mjs: non-empty trimmed output
becomes a single error diagnostic with the first five lines. -/
def genericParser (output : String) : List Diag :=
  let trimmed := jsTrim output
  if trimmed ≠ "" then [{ message := truncateOutput trimmed 5, severity := "error" }]
  else []

/-- The `config.severity || "error"` default of `createRegexParser`. -/
def defaultSeverityOf (severity : Option String) : String :=
  match severity with
  | some s => if s = "" then "error" else s
  | none => "error"

/-- One loop iteration of the parser returned by `createRegexParser`:
the compiled regex (modelled as the function `exec`, `none` standing for
no match or no named groups) is run once per line; `line` / `column` go
through `parseInt` when their group is truthy, `message` falls back to
the trimmed line, `severity` to the configured default. -/
def regexParserLine (exec : String → Option Groups) (defaultSeverity : String)
    (line : String) : Option Diag :=
  match exec line with
  | none => none
  | some g =>
    some {
      line := match g.line with
        | some s => if s = "" then none else jsParseInt s
        | none => none
      column := match g.column with
        | some s => if s = "" then none else jsParseInt s
        | none => none
      message := match g.message with
        | some m => if m = "" then jsTrim line else m
        | none => jsTrim line
      rule := g.rule
      severity := match g.severity with
        | some s => if s = "" then defaultSeverity else s
        | none => defaultSeverity
      source := none }

/-- Embedding of `createRegexParser` from lib.mjs, over the compiled
regex `exec` (the `new RegExp(pattern, "gm")` engine is external; the
per-line `lastIndex` reset makes each line's match independent). -/
def createRegexParser (exec : String → Option Groups) (severity : Option String) :
    String → List Diag :=
  fun output => (output.splitOn "\n").filterMap (regexParserLine exec (defaultSeverityOf severity))

/-- Embedding of `getParser` from lib.mjs.  `builtins` is the table of
predefined parsers (external tool-output grammars, modelled abstractly
except for `generic`); `compile` models `new RegExp`, returning `none`
exactly when compilation throws, which the source's try/catch turns
into the generic fallback. -/
def getParser (builtins : String → Option (String → List Diag))
    (compile : String → Option (String → Option Groups))
    (parserConfig : Option ParserSpec) : String → List Diag :=
  match parserConfig with
  | none => genericParser
  | some (ParserSpec.str name) =>
    match builtins name with
    | some p => p
    | none => genericParser
  | some (ParserSpec.obj pattern severity) =>
    if pattern = "" then genericParser
    else
      match compile pattern with
      | some exec => createRegexParser exec severity
      | none => genericParser

/-- Captured result of one spawned command (`runCommand` in lib.mjs maps
`spawnSync` to `success := status == 0` plus the two streams). -/
structure ExecResult where
  success : Bool
  stdout : String := ""
  stderr : String := ""
deriving DecidableEq

/-- The `$FILE` substitution step of `runCheck`: an argument equal to
the placeholder becomes the file path, otherwise its first placeholder
occurrence is replaced. -/
def substituteArgs (args : List String) (filePath : String) : List String :=
  args.map (fun arg => if arg = "$FILE" then filePath else jsReplaceFirst arg "$FILE" filePath)

/-- Embedding of `runCheck` from lib.mjs.  `cmdExists` models the
`command -v` probe and `exec` the synchronous spawn (both external
process effects).  A missing command yields one warning diagnostic; a
successful exit yields none; otherwise combined output is screened for
"not found", parsed, capped at `maxDiagnostics` (default 5), and
stamped with the check's name, falling back to truncated raw output. -/
def runCheck (cmdExists : String → Bool)
    (exec : String → List String → String → ExecResult)
    (builtins : String → Option (String → List Diag))
    (compile : String → Option (String → Option Groups))
    (check : Check) (filePath : String) (projectRoot : String) : List Diag :=
  if !cmdExists check.command then
    [{ message := check.command ++ " not found - skipping " ++ check.name,
       source := some check.name, severity := "warning" }]
  else
    let args := substituteArgs check.args filePath
    let result := exec check.command args projectRoot
    if result.success then []
    else
      let combined := result.stdout ++ result.stderr
      if strContains combined "not found" || strContains combined "command not found" then []
      else
        let parsed := getParser builtins compile check.parser combined
        if parsed.length > 0 then
          let maxDiagnostics : Int :=
            match check.maxDiagnostics with
            | some n => if n ≠ 0 then n else 5
            | none => 5
          (jsSlice parsed maxDiagnostics).map (fun d => { d with source := some check.name })
        else
          [{ message := truncateOutput combined 3, source := some check.name,
             severity := "error" }]

/-- One task rule from the configuration's `tasks` array. -/
structure TaskRule where
  name : String := ""
  «match» : String := ""
  action : String := ""
  message : Option String := none
deriving DecidableEq

/-- Embedding of `matchPattern` from checkmate-review.mjs / part_001:
exact equality matches with no capture; a pattern starting with `*`
matches any identifier ending with the remaining suffix, capturing
`subagentType.slice(0, -suffix.length)` (which is the empty string when
the suffix is empty, since `-0` is `0`). -/
def matchPatternAux (subagentType : String) : List Char → Option (Option String)
  | c :: suffix =>
    if c = '*' then
      if suffix.isSuffixOf subagentType.toList then
        some (some (if suffix.length = 0 then ""
          else ⟨subagentType.toList.take (subagentType.toList.length - suffix.length)⟩))
      else none
    else none
  | [] => none

/-- Pattern dispatch of `matchPattern` on the pattern's characters. -/
def matchPattern (subagentType pattern : String) : Option (Option String) :=
  if pattern = subagentType then some none
  else matchPatternAux subagentType pattern.toList

/-- The second pass of `findMatchingTask`: first rule whose match field
is non-empty, contains `*`, and matches. -/
def findWildcardTask (subagentType : String) : List TaskRule → Option (TaskRule × Option String)
  | [] => none
  | rule :: rest =>
    if rule.«match» = "" ∨ !(rule.«match».toList.contains '*') then
      findWildcardTask subagentType rest
    else
      match matchPattern subagentType rule.«match» with
      | some capture => some (rule, capture)
      | none => findWildcardTask subagentType rest

/-- Embedding of `findMatchingTask` from checkmate-review.mjs /
part_001: exact pass over all rules (skipping falsy match fields), then
the wildcard pass. -/
def findMatchingTask (tasks : List TaskRule) (subagentType : String) :
    Option (TaskRule × Option String) :=
  if tasks.isEmpty then none
  else
    match tasks.find? (fun rule => rule.«match» != "" && rule.«match» == subagentType) with
    | some rule => some (rule, none)
    | none => findWildcardTask subagentType tasks

/-- Embedding of `applySubstitutions`: with a capture, replace all `$1`
then all `*` (each via `String.prototype.replace` with a global regex,
so `$`-sequences in the capture expand per `expandRepl`). -/
def applySubstitutions (template : String) (capture : Option String) : String :=
  match capture with
  | none => template
  | some c => jsReplaceAll (jsReplaceAll template "$1" c) "*" c

/-- The JSON object printed by the review hook: an optional blocking
decision with reason, and an optional system message. -/
structure HookOutput where
  decision : Option String := none
  reason : Option String := none
  systemMessage : Option String := none
deriving DecidableEq

/-- The action dispatch at the end of `main` in checkmate-review.mjs
(part_001's `run` is the same shape through `pass` / `block`): `skip`
and `message` print only a system message naming the rule — the
`message` branch computes the substituted template into a local that is
never used — while `review` blocks with the substituted reason;
unknown actions print nothing. -/
def dispatchTaskAction (rule : TaskRule) (capture : Option String) : Option HookOutput :=
  if rule.action = "skip" then
    some { systemMessage := some ("[checkmate] ✅ " ++ rule.name) }
  else if rule.action = "message" then
    let _message := applySubstitutions (rule.message.getD "") capture
    some { systemMessage := some ("[checkmate] ℹ️ " ++ rule.name) }
  else if rule.action = "review" then
    some { decision := some "block",
           reason := some (applySubstitutions (rule.message.getD "") capture),
           systemMessage := some ("[checkmate] 🔍 " ++ rule.name) }
  else none

/-- JSON values, for the validator (which receives arbitrary parsed
JSON).  Numbers are `Int` (no claim involves fractional values). -/
inductive Json where
  | null : Json
  | bool : Bool → Json
  | num : Int → Json
  | str : String → Json
  | arr : List Json → Json
  | obj : List (String × Json) → Json

/-- Property access `j.key`; `none` models `undefined` (any access on a
non-object, or a missing key).  The source would throw a `TypeError` on
property access on `null`/`undefined` values (e.g. a `null` entry in
`environments`); those crashing inputs are outside this model. -/
def Json.get? : Json → String → Option Json
  | Json.obj fields, key => (fields.find? (fun f => f.1 == key)).map (fun f => f.2)
  | _, _ => none

/-- JavaScript truthiness. -/
def Json.truthy : Json → Bool
  | Json.null => false
  | Json.bool b => b
  | Json.num n => n != 0
  | Json.str s => s != ""
  | Json.arr _ => true
  | Json.obj _ => true

/-- Whether `typeof x === "object"` (true for `null` and arrays). -/
def Json.isObjectType : Json → Bool
  | Json.null => true
  | Json.arr _ => true
  | Json.obj _ => true
  | _ => false

/-- Truthiness of a possibly-undefined value. -/
def truthyOpt : Option Json → Bool
  | some j => j.truthy
  | none => false

/-- `Object.entries`: an object's ordered fields; an array's
index-value pairs; empty for primitives. -/
def Json.entriesOf : Json → List (String × Json)
  | Json.obj fields => fields
  | Json.arr items => items.enum.map (fun p => (toString p.1, p.2))
  | _ => []

/-- String coercion used in error-message templates (arrays are
approximated by the empty string; only non-string truthy `name` fields
reach this, and no claim depends on it). -/
def Json.display : Json → String
  | Json.str s => s
  | Json.num n => toString n
  | Json.bool b => if b then "true" else "false"
  | Json.null => "null"
  | Json.arr _ => ""
  | Json.obj _ => "[object Object]"

/-- The predefined parser names accepted by the validator. -/
def PREDEFINED_PARSERS : List String :=
  ["ruff", "ty", "eslint", "tsc", "prettier", "biome", "generic", "jsonl", "gcc"]

/-- Embedding of `validateCheck` from lib.mjs (validate.mjs section).
`regexCheck` models `new RegExp(pattern)`: `none` when it compiles,
`some msg` carrying the thrown error's message otherwise. -/
def validateCheck (regexCheck : String → Option String) (check : Json)
    (envName ext : String) (index : Nat) : List String :=
  let pre := "environments[" ++ envName ++ "].checks[\"" ++ ext ++ "\"][" ++ toString index ++ "]"
  if !check.truthy || !check.isObjectType then [pre ++ ": must be an object"]
  else
    let nameErrs :=
      match check.get? "name" with
      | some (Json.str s) => if s = "" then [pre ++ ".name: required string"] else []
      | _ => [pre ++ ".name: required string"]
    let commandErrs :=
      match check.get? "command" with
      | some (Json.str s) => if s = "" then [pre ++ ".command: required string"] else []
      | _ => [pre ++ ".command: required string"]
    let argsErrs :=
      match check.get? "args" with
      | some (Json.arr items) =>
        if items.any (fun arg =>
            match arg with
            | Json.str s => s == "$FILE" || strContains s "$FILE"
            | _ => false)
        then []
        else [pre ++ ".args: should contain \"$FILE\" placeholder"]
      | _ => [pre ++ ".args: required array"]
    let parserErrs :=
      match check.get? "parser" with
      | none => []
      | some (Json.str s) =>
        if PREDEFINED_PARSERS.contains s then []
        else [pre ++ ".parser: unknown parser \"" ++ s ++ "\". Valid: " ++
          String.intercalate ", " PREDEFINED_PARSERS]
      | some p =>
        if p.isObjectType then
          let patternErrs :=
            match p.get? "pattern" with
            | some (Json.str s) =>
              if s = "" then [pre ++ ".parser.pattern: required string for custom parser"]
              else
                match regexCheck s with
                | none => []
                | some msg => [pre ++ ".parser.pattern: invalid regex - " ++ msg]
            | _ => [pre ++ ".parser.pattern: required string for custom parser"]
          let sevErrs :=
            match p.get? "severity" with
            | none => []
            | some v =>
              let ok := match v with
                | Json.str s => s == "error" || s == "warning"
                | _ => false
              if v.truthy && !ok then [pre ++ ".parser.severity: must be \"error\" or \"warning\""]
              else []
          patternErrs ++ sevErrs
        else [pre ++ ".parser: must be string or object"]
    let maxErrs :=
      match check.get? "maxDiagnostics" with
      | none => []
      | some (Json.num n) => if n < 1 then [pre ++ ".maxDiagnostics: must be positive integer"] else []
      | some _ => [pre ++ ".maxDiagnostics: must be positive integer"]
    let autoErrs :=
      match check.get? "_auto" with
      | none => []
      | some (Json.bool _) => []
      | some _ => [pre ++ "._auto: must be boolean"]
    nameErrs ++ commandErrs ++ argsErrs ++ parserErrs ++ maxErrs ++ autoErrs

/-- Embedding of `validateChecks` from lib.mjs: extension keys are
split on commas and trimmed, each piece must start with a dot; each
value must be an array of valid checks. -/
def validateChecks (regexCheck : String → Option String) (checks : Option Json)
    (envName : String) : List String :=
  match checks with
  | some c =>
    if !c.truthy || !c.isObjectType then ["environments[" ++ envName ++ "].checks: required object"]
    else
      (c.entriesOf.map (fun e =>
        let ext := e.1
        let extErrs := ((ext.splitOn ",").map (fun x => jsTrim x)).filterMap (fun extension =>
          if jsStartsWith extension "." then none
          else some ("environments[" ++ envName ++ "].checks: extension \"" ++ extension ++
            "\" in key \"" ++ ext ++ "\" should start with \".\""))
        let listErrs :=
          match e.2 with
          | Json.arr items =>
            (items.enum.map (fun p => validateCheck regexCheck p.2 envName ext p.1)).flatten
          | _ => ["environments[" ++ envName ++ "].checks[\"" ++ ext ++ "\"]: must be array"]
        extErrs ++ listErrs)).flatten
  | none => ["environments[" ++ envName ++ "].checks: required object"]

/-- Embedding of `validateAgents` from lib.mjs. -/
def validateAgents (agents : Json) (envName : String) : List String :=
  match agents with
  | Json.null => ["environments[" ++ envName ++ "].agents: must be an object"]
  | j =>
    if !j.isObjectType then ["environments[" ++ envName ++ "].agents: must be an object"]
    else
      (j.entriesOf.map (fun e =>
        let key := e.1
        let extErrs := ((key.splitOn ",").map (fun x => jsTrim x)).filterMap (fun ext =>
          if jsStartsWith ext "." then none
          else some ("environments[" ++ envName ++ "].agents: extension \"" ++ ext ++
            "\" in key \"" ++ key ++ "\" should start with \".\""))
        let nameErrs :=
          match e.2 with
          | Json.str s =>
            if jsTrim s = "" then
              ["environments[" ++ envName ++ "].agents[\"" ++ key ++
                "\"]: agent name must be a non-empty string"]
            else []
          | _ => ["environments[" ++ envName ++ "].agents[\"" ++ key ++
              "\"]: agent name must be a non-empty string"]
        extErrs ++ nameErrs)).flatten

/-- The indexed loop of `validateEnvironmentArray`, carrying the set of
names already seen (duplicate detection). -/
def validateEnvsAux (regexCheck : String → Option String) :
    Nat → List String → List Json → List String
  | _, _, [] => []
  | i, names, env :: rest =>
    let envName :=
      match env.get? "name" with
      | some v => if v.truthy then v.display else "[" ++ toString i ++ "]"
      | none => "[" ++ toString i ++ "]"
    if !env.truthy || !env.isObjectType then
      ("environments[" ++ toString i ++ "]: must be object") ::
        validateEnvsAux regexCheck (i + 1) names rest
    else
      let nameRes : List String × List String :=
        match env.get? "name" with
        | none => ([], names)
        | some (Json.str s) =>
          if names.contains s then
            (["environments[" ++ toString i ++ "].name: duplicate name \"" ++ s ++ "\""], names)
          else ([], s :: names)
        | some _ => (["environments[" ++ toString i ++ "].name: must be string"], names)
      let pathErrs :=
        match env.get? "paths" with
        | some (Json.arr ps) =>
          (ps.enum.filterMap (fun p =>
            match p.2 with
            | Json.str _ => none
            | _ => some ("environments[" ++ envName ++ "].paths[" ++ toString p.1 ++
                "]: must be string"))) ++
          (if ps.isEmpty then
            ["environments[" ++ envName ++ "].paths: must have at least one path"]
          else [])
        | _ => ["environments[" ++ envName ++ "].paths: required array"]
      let exclErrs :=
        match env.get? "exclude" with
        | none => []
        | some (Json.arr xs) =>
          xs.enum.filterMap (fun p =>
            match p.2 with
            | Json.str _ => none
            | _ => some ("environments[" ++ envName ++ "].exclude[" ++ toString p.1 ++
                "]: must be string"))
        | some _ => ["environments[" ++ envName ++ "].exclude: must be array"]
      let checksErrs := validateChecks regexCheck (env.get? "checks") envName
      let agentsErrs :=
        match env.get? "agents" with
        | none => []
        | some a => validateAgents a envName
      nameRes.1 ++ pathErrs ++ exclErrs ++ checksErrs ++ agentsErrs ++
        validateEnvsAux regexCheck (i + 1) nameRes.2 rest

/-- Embedding of `validateEnvironmentArray` from lib.mjs. -/
def validateEnvironmentArray (regexCheck : String → Option String)
    (environments : Json) : List String :=
  match environments with
  | Json.arr envs => validateEnvsAux regexCheck 0 [] envs
  | _ => ["environments: must be array"]

/-- Embedding of `validateTaskRule` from lib.mjs. -/
def validateTaskRule (rule : Json) (index : Nat) : List String :=
  let pre := "tasks[" ++ toString index ++ "]"
  if !rule.truthy || !rule.isObjectType then [pre ++ ": must be an object"]
  else
    let nameErrs :=
      match rule.get? "name" with
      | some (Json.str s) => if s = "" then [pre ++ ".name: required string"] else []
      | _ => [pre ++ ".name: required string"]
    let matchErrs :=
      match rule.get? "match" with
      | some (Json.str s) => if s = "" then [pre ++ ".match: required string"] else []
      | _ => [pre ++ ".match: required string"]
    let actionErrs :=
      match rule.get? "action" with
      | some (Json.str s) =>
        if s = "" then [pre ++ ".action: required string (skip|message|review)"]
        else if ["skip", "message", "review"].contains s then []
        else [pre ++ ".action: must be one of: skip, message, review"]
      | _ => [pre ++ ".action: required string (skip|message|review)"]
    let msgReqErrs :=
      match rule.get? "action" with
      | some (Json.str s) =>
        if s = "message" ∨ s = "review" then
          match rule.get? "message" with
          | some (Json.str m) =>
            if m = "" then [pre ++ ".message: required string for action \"" ++ s ++ "\""] else []
          | _ => [pre ++ ".message: required string for action \"" ++ s ++ "\""]
        else []
      | _ => []
    let msgForbErrs :=
      match rule.get? "action", rule.get? "message" with
      | some (Json.str s), some _ =>
        if s = "skip" then [pre ++ ".message: should not be present for action \"skip\""] else []
      | _, _ => []
    nameErrs ++ matchErrs ++ actionErrs ++ msgReqErrs ++ msgForbErrs

/-- Embedding of `validateTasksArray` from lib.mjs. -/
def validateTasksArray (tasks : Json) : List String :=
  match tasks with
  | Json.arr items => (items.enum.map (fun p => validateTaskRule p.2 p.1)).flatten
  | _ => ["tasks: must be array"]

/-- Embedding of `validateSkipDuringGitOperations` from lib.mjs. -/
def validateSkipDuringGitOperations (skipConfig : Json) : List String :=
  let validOps := ["rebase", "bisect", "merge", "cherryPick", "revert", "am"]
  match skipConfig with
  | Json.null => ["git: must be an object"]
  | j =>
    if !j.isObjectType then ["git: must be an object"]
    else
      (j.entriesOf.map (fun e =>
        let keyErrs :=
          if validOps.contains e.1 then []
          else ["git." ++ e.1 ++ ": unknown git operation (valid: " ++
            String.intercalate ", " validOps ++ ")"]
        let valErrs :=
          match e.2 with
          | Json.bool _ => []
          | _ => ["git." ++ e.1 ++ ": must be a boolean"]
        keyErrs ++ valErrs)).flatten

/-- Embedding of `validateConfig` from lib.mjs: structural checks on the
whole document, returning `(errors, warnings)` (warnings are never
produced by the source). -/
def validateConfig (regexCheck : String → Option String) (config : Json) :
    List String × List String :=
  if !config.truthy || !config.isObjectType then (["config: must be object"], [])
  else if !truthyOpt (config.get? "environments") then
    (["config: must have \x27environments\x27 array"], [])
  else
    match config.get? "environments" with
    | some (Json.arr envs) =>
      let envErrs := validateEnvironmentArray regexCheck (Json.arr envs)
      let taskErrs :=
        match config.get? "tasks" with
        | none => []
        | some t => validateTasksArray t
      let gitErrs :=
        match config.get? "git" with
        | none => []
        | some g => validateSkipDuringGitOperations g
      (envErrs ++ taskErrs ++ gitErrs, [])
    | _ => (["environments: must be array"], [])

/-- An environment the resolver's scan passes over before reaching the
first covering one: its paths list is unusable, or it does not cover
the file. -/
def passedOver (relativePath : String) (env : Env) : Prop :=
  env.paths = none ∨
  ∃ paths, env.paths = some paths ∧ fileMatchesPaths relativePath paths = false

/-- An environment the scan skips on the way to the first covering
non-excluded environment: passed over, or covering but excluded while
defining no checks for the extension (the source's `continue` case). -/
def skippedForChecks (relativePath ext : String) (env : Env) : Prop :=
  passedOver relativePath env ∨
  ∃ paths pattern, env.paths = some paths ∧ fileMatchesPaths relativePath paths = true ∧
    matchedExcludePattern relativePath env = some pattern ∧
    (getChecksForExtension env.checks ext).length = 0

/-- No character of the string is a dollar sign (under this condition
JavaScript replacement-text expansion is the identity). -/
def noDollar (s : String) : Prop :=
  ∀ c ∈ s.toList, c ≠ '$'

theorem expandRepl_eq_of_noDollar (matched before after : List Char) :
    ∀ repl : List Char, (∀ c ∈ repl, c ≠ '$') →
      expandRepl matched before after repl = repl := by
  intro repl h
  induction repl with
  | nil => rfl
  | cons c rest ih =>
    have hc : c ≠ '$' := h c (by simp)
    have hrec := ih (fun x hx => h x (by simp [hx]))
    conv_lhs => unfold expandRepl
    rw [if_neg hc, hrec]

theorem jsReplaceAllAux_eq_plainAux (pat repl : List Char) (hrepl : ∀ c ∈ repl, c ≠ '$') :
    ∀ (fuel : Nat) (pre s : List Char),
      jsReplaceAllAux pat repl fuel pre s = replaceAllPlainAux pat repl fuel s := by
  intro fuel
  induction fuel with
  | zero => intro pre s; rfl
  | succ f ih =>
    intro pre s
    simp only [jsReplaceAllAux, replaceAllPlainAux]
    by_cases hc : pat ≠ [] ∧ pat.isPrefixOf s
    · rw [if_pos hc, if_pos hc, expandRepl_eq_of_noDollar _ _ _ _ hrepl, ih]
    · rw [if_neg hc, if_neg hc]
      cases s with
      | nil => rfl
      | cons c rest => exact congrArg (List.cons c) (ih (pre ++ [c]) rest)

theorem jsReplaceAll_eq_plain (s pat repl : String) (h : noDollar repl) :
    jsReplaceAll s pat repl = replaceAllPlain s pat repl := by
  unfold jsReplaceAll replaceAllPlain
  rw [jsReplaceAllAux_eq_plainAux pat.toList repl.toList h]

theorem reMatchAux_dot_star :
    ∀ (cs : List Char) (fuel : Nat), cs.length + 2 ≤ fuel →
      reMatchAux fuel [(RAtom.dot, true)] cs = cs.all (fun c => !isLineTerminator c) := by
  intro cs
  induction cs with
  | nil =>
    intro fuel h
    obtain ⟨f, rfl⟩ : ∃ f, fuel = f + 2 := ⟨fuel - 2, by omega⟩
    simp [reMatchAux]
  | cons c rest ih =>
    intro fuel h
    obtain ⟨f, rfl⟩ : ∃ f, fuel = f + 1 := ⟨fuel - 1, by omega⟩
    have h1 : reMatchAux f [] (c :: rest) = false := by
      cases f with
      | zero => rfl
      | succ f2 => rfl
    simp only [reMatchAux, h1, Bool.false_or]
    rw [ih f (by simp at h ⊢; omega)]
    simp [matchAtom]

/-- C8: corrected.  The claim as stated fails on paths containing a line
terminator (an unflagged JavaScript `.` does not match `\n`), so
`matchesExclude(p, "**")` is false e.g. for `p = "a\nb"`.  Amended
claim: for every non-empty relative path containing no line-terminator
character, `matchesExcludePattern p "**"` returns true (the translation
of `"**"` is the anchored regex `^.*$`). -/
theorem matchesExclude_globstar (p : String) (_hne : p ≠ "")
    (hnl : ∀ c ∈ p.toList, isLineTerminator c = false) :
    matchesExcludePattern p "**" = true := by
  have ht : parseRegex (translateGlob "**").toList = [(RAtom.dot, true)] := by decide
  unfold matchesExcludePattern
  rw [ht]
  unfold reMatch
  rw [reMatchAux_dot_star p.toList _ (by simp; omega)]
  rw [List.all_eq_true]
  intro c hc
  simp [hnl c hc]

/-- C8 witness: the amended theorem applied at the concrete path
`foo.py`. -/
theorem matchesExclude_globstar_witness :
    ("foo.py" : String) ≠ "" ∧ matchesExcludePattern "foo.py" "**" = true :=
  ⟨by decide, matchesExclude_globstar "foo.py" (by decide) (by decide)⟩

/-- C8 counterexample: the non-empty path `a` newline `b` is rejected by
the `**` pattern, refuting the claim as stated. -/
theorem matchesExclude_globstar_counterexample :
    ("a\nb" : String) ≠ "" ∧ matchesExcludePattern "a\nb" "**" = false := by
  decide

theorem resolveEnvironments_cons_passedOver (relativePath ext : String) (env : Env)
    (rest : List Env) (h : passedOver relativePath env) :
    resolveEnvironments relativePath ext (env :: rest) =
      resolveEnvironments relativePath ext rest := by
  rcases h with h | ⟨paths, hpaths, hcov⟩
  · simp [resolveEnvironments, h]
  · simp [resolveEnvironments, hpaths, hcov]

theorem resolveEnvironments_cons_skipped (relativePath ext : String) (env : Env)
    (rest : List Env) (h : skippedForChecks relativePath ext env) :
    resolveEnvironments relativePath ext (env :: rest) =
      resolveEnvironments relativePath ext rest := by
  rcases h with h | ⟨paths, pattern, hpaths, hcov, hexcl, hlen⟩
  · exact resolveEnvironments_cons_passedOver relativePath ext env rest h
  · simp [resolveEnvironments, hpaths, hcov, hexcl, hlen]

theorem resolveEnvironments_append_passedOver (relativePath ext : String)
    (pre : List Env) (rest : List Env) (h : ∀ e ∈ pre, passedOver relativePath e) :
    resolveEnvironments relativePath ext (pre ++ rest) =
      resolveEnvironments relativePath ext rest := by
  induction pre with
  | nil => rfl
  | cons e t ih =>
    rw [List.cons_append,
      resolveEnvironments_cons_passedOver relativePath ext e _ (h e (by simp))]
    exact ih (fun x hx => h x (by simp [hx]))

theorem resolveEnvironments_append_skipped (relativePath ext : String)
    (pre : List Env) (rest : List Env) (h : ∀ e ∈ pre, skippedForChecks relativePath ext e) :
    resolveEnvironments relativePath ext (pre ++ rest) =
      resolveEnvironments relativePath ext rest := by
  induction pre with
  | nil => rfl
  | cons e t ih =>
    rw [List.cons_append,
      resolveEnvironments_cons_skipped relativePath ext e _ (h e (by simp))]
    exact ih (fun x hx => h x (by simp [hx]))

/-- C1: confirmed.  When the first environment whose paths cover the
file (all earlier ones lacking a usable paths list or not covering) has
an exclude pattern matching the relative path — `pattern` being the
first such pattern, as `env.exclude.find` returns — then: if the
environment defines checks for the extension, the resolver stops with
reason `path-excluded` carrying that pattern and the environment name
and no checks; if it defines none, resolution continues with exactly
the environments after it. -/
theorem getChecksForFile_path_excluded (relativePath ext : String)
    (pre post : List Env) (env : Env) (paths : List String) (pattern : String)
    (hpre : ∀ e ∈ pre, passedOver relativePath e)
    (hpaths : env.paths = some paths)
    (hcov : fileMatchesPaths relativePath paths = true)
    (hexcl : matchedExcludePattern relativePath env = some pattern) :
    ((getChecksForExtension env.checks ext).length > 0 →
      getChecksForFile (some { environments := some (pre ++ env :: post) }) relativePath ext
        = { checks := [], reason := "path-excluded", pattern := some pattern,
            env := env.name }) ∧
    ((getChecksForExtension env.checks ext).length = 0 →
      getChecksForFile (some { environments := some (pre ++ env :: post) }) relativePath ext
        = resolveEnvironments relativePath ext post) := by
  have hmain : getChecksForFile (some { environments := some (pre ++ env :: post) })
      relativePath ext = resolveEnvironments relativePath ext (env :: post) := by
    show resolveEnvironments relativePath ext (pre ++ env :: post) = _
    exact resolveEnvironments_append_passedOver relativePath ext pre _ hpre
  constructor
  · intro hgt
    rw [hmain]
    simp [resolveEnvironments, hpaths, hcov, hexcl, hgt]
  · intro heq
    rw [hmain]
    simp [resolveEnvironments, hpaths, hcov, hexcl, heq]

/-- C1 witness: one environment covering `.`, excluding everything via
`**`, with checks configured for `.py`; the file `f.py` resolves to
`path-excluded` with the matched pattern and environment name. -/
theorem getChecksForFile_path_excluded_witness :
    (getChecksForExtension
        (some [(".py", [{ name := "ruff", command := "ruff", args := ["$FILE"] }])])
        ".py").length > 0 ∧
    getChecksForFile (some { environments := some (
        [{ name := some "A", paths := some ["."], exclude := some ["**"],
           checks := some [(".py",
             [{ name := "ruff", command := "ruff", args := ["$FILE"] }])] }]) })
      "f.py" ".py"
      = { checks := [], reason := "path-excluded", pattern := some "**",
          env := some "A" } :=
  ⟨by decide,
    (getChecksForFile_path_excluded "f.py" ".py" [] []
      { name := some "A", paths := some ["."], exclude := some ["**"],
        checks := some [(".py", [{ name := "ruff", command := "ruff", args := ["$FILE"] }])] }
      ["."] "**"
      (fun e he => absurd he (List.not_mem_nil e))
      rfl (by decide) (by decide)).1 (by decide)⟩

/-- C2 (amended): provided the scan actually reaches the first covering
non-excluded environment — every earlier environment lacks usable
paths, does not cover, or covers but is excluded with no checks for the
extension — that environment's result is final: its checks with reason
`ok` when it has checks for the extension, else `no-checks-for-extension`
with no fall-through to the remaining environments. -/
theorem getChecksForFile_first_covering (relativePath ext : String)
    (pre post : List Env) (env : Env) (paths : List String)
    (hpre : ∀ e ∈ pre, skippedForChecks relativePath ext e)
    (hpaths : env.paths = some paths)
    (hcov : fileMatchesPaths relativePath paths = true)
    (hnoexcl : matchedExcludePattern relativePath env = none) :
    ((getChecksForExtension env.checks ext).length > 0 →
      getChecksForFile (some { environments := some (pre ++ env :: post) }) relativePath ext
        = { checks := getChecksForExtension env.checks ext, reason := "ok" }) ∧
    ((getChecksForExtension env.checks ext).length = 0 →
      getChecksForFile (some { environments := some (pre ++ env :: post) }) relativePath ext
        = { checks := [], reason := "no-checks-for-extension" }) := by
  have hmain : getChecksForFile (some { environments := some (pre ++ env :: post) })
      relativePath ext = resolveEnvironments relativePath ext (env :: post) := by
    show resolveEnvironments relativePath ext (pre ++ env :: post) = _
    exact resolveEnvironments_append_skipped relativePath ext pre _ hpre
  constructor
  · intro hgt
    rw [hmain]
    simp [resolveEnvironments, hpaths, hcov, hnoexcl, hgt]
  · intro heq
    rw [hmain]
    simp [resolveEnvironments, hpaths, hcov, hnoexcl, heq]

/-- C2 witness: the amended theorem applied to a config where the first
environment does not cover `lib/f.py` and the second does, so the
second environment's checks run with reason `ok` even though a third
catch-all environment also covers the path. -/
theorem getChecksForFile_first_covering_witness :
    (getChecksForExtension
        (some [(".py", [{ name := "ruffB", command := "rb", args := ["$FILE"] }])])
        ".py").length > 0 ∧
    getChecksForFile (some { environments := some (
        [{ name := some "A", paths := some ["services"],
           checks := some [(".py", [{ name := "ruffA", command := "ra", args := ["$FILE"] }])] },
         { name := some "B", paths := some ["lib"],
           checks := some [(".py", [{ name := "ruffB", command := "rb", args := ["$FILE"] }])] },
         { name := some "C", paths := some ["."],
           checks := some [(".py", [{ name := "ruffC", command := "rc", args := ["$FILE"] }])] }]) })
      "lib/f.py" ".py"
      = { checks := [{ name := "ruffB", command := "rb", args := ["$FILE"] }],
          reason := "ok" } :=
  ⟨by decide,
    ((getChecksForFile_first_covering "lib/f.py" ".py"
      [{ name := some "A", paths := some ["services"],
         checks := some [(".py", [{ name := "ruffA", command := "ra", args := ["$FILE"] }])] }]
      [{ name := some "C", paths := some ["."],
         checks := some [(".py", [{ name := "ruffC", command := "rc", args := ["$FILE"] }])] }]
      { name := some "B", paths := some ["lib"],
        checks := some [(".py", [{ name := "ruffB", command := "rb", args := ["$FILE"] }])] }
      ["lib"]
      (fun e he => by
        rw [List.mem_singleton] at he
        exact Or.inl (Or.inr ⟨["services"], by rw [he], by decide⟩))
      rfl (by decide) (by decide)).1 (by decide)).trans (by decide)⟩

/-- C2 counterexample: environment A covers `.`, is excluded by `**`,
and defines `.py` checks; environment B also covers `.`, is not
excluded, and defines `.py` checks.  B is the first covering
non-excluded environment, yet the resolver returns A's `path-excluded`
result — not B's checks with reason `ok` — refuting the claim as
stated. -/
theorem getChecksForFile_first_covering_counterexample :
    getChecksForFile (some { environments := some (
        [{ name := some "A", paths := some ["."], exclude := some ["**"],
           checks := some [(".py", [{ name := "ruffA", command := "ra", args := ["$FILE"] }])] },
         { name := some "B", paths := some ["."],
           checks := some [(".py", [{ name := "ruffB", command := "rb", args := ["$FILE"] }])] }]) })
      "f.py" ".py"
      = { checks := [], reason := "path-excluded", pattern := some "**", env := some "A" } ∧
    fileMatchesPaths "f.py" ["."] = true ∧
    matchedExcludePattern "f.py"
      { name := some "B", paths := some ["."],
        checks := some [(".py", [{ name := "ruffB", command := "rb", args := ["$FILE"] }])] }
      = none ∧
    (getChecksForExtension
        (some [(".py", [{ name := "ruffB", command := "rb", args := ["$FILE"] }])])
        ".py").length > 0 := by
  decide

/-- C3 (amended): if some rule's match field is non-empty and exactly
equal to the identifier, `findMatchingTask` returns the first rule
whose match equals the identifier — with no capture — even when a
wildcard rule that also matches the identifier is declared earlier
(earlier rules only need a match field different from the identifier). -/
theorem findMatchingTask_exact_first
    (tasks pre post : List TaskRule) (r : TaskRule) (ident : String)
    (hsplit : tasks = pre ++ r :: post)
    (hr : r.«match» = ident) (hne : ident ≠ "")
    (hpre : ∀ r2 ∈ pre, r2.«match» ≠ ident) :
    findMatchingTask tasks ident = some (r, none) := by
  subst hsplit
  unfold findMatchingTask
  have hempty : (pre ++ r :: post).isEmpty = false := by simp
  rw [hempty]
  have hfind : (pre ++ r :: post).find?
      (fun rule => rule.«match» != "" && rule.«match» == ident) = some r := by
    clear hempty
    induction pre with
    | nil =>
      rw [List.nil_append]
      rw [List.find?_cons_of_pos _ (by simp [hr, hne])]
    | cons e t ih =>
      rw [List.cons_append]
      rw [List.find?_cons_of_neg _ (by
        simp only [Bool.and_eq_true, bne_iff_ne, beq_iff_eq, not_and]
        intro _ h2
        exact hpre e (by simp) h2)]
      exact ih (fun x hx => hpre x (by simp [hx]))
  simp [hfind]

/-- C3 counterexample: a rule whose match field is the empty string is
skipped by the falsiness guard of the exact pass, so with the empty
identifier the rule's match equals the identifier yet no rule is
returned, refuting the claim as stated. -/
theorem findMatchingTask_exact_first_counterexample :
    ({ name := "r", «match» := "", action := "skip" } : TaskRule).«match» = "" ∧
    findMatchingTask [{ name := "r", «match» := "", action := "skip" }] "" = none := by
  decide

/-- C3 witness: the exact rule for `test-engineer` wins although the
wildcard rule `*-engineer`, which also matches, is declared first. -/
theorem findMatchingTask_exact_first_witness :
    findMatchingTask
      [{ name := "w", «match» := "*-engineer", action := "review",
         message := some "Invoke *-reviewer" },
       { name := "e", «match» := "test-engineer", action := "skip" }]
      "test-engineer"
      = some ({ name := "e", «match» := "test-engineer", action := "skip" }, none) :=
  findMatchingTask_exact_first _
    [{ name := "w", «match» := "*-engineer", action := "review",
       message := some "Invoke *-reviewer" }]
    []
    { name := "e", «match» := "test-engineer", action := "skip" }
    "test-engineer" rfl rfl (by decide) (by decide)

theorem findWildcardTask_cons_skip (ident : String) (rule : TaskRule) (rest : List TaskRule)
    (h : rule.«match» = "" ∨ rule.«match».toList.contains '*' = false ∨
      matchPattern ident rule.«match» = none) :
    findWildcardTask ident (rule :: rest) = findWildcardTask ident rest := by
  conv_lhs => unfold findWildcardTask
  by_cases h0 : rule.«match» = "" ∨ (!(rule.«match».toList.contains '*')) = true
  · rw [if_pos h0]
  · rw [if_neg h0]
    have hmp : matchPattern ident rule.«match» = none := by
      rcases h with h | h | h
      · exact absurd (Or.inl h) h0
      · exact absurd (Or.inr (by rw [h]; rfl)) h0
      · exact h
    rw [hmp]

/-- C4 (amended): for a task rule whose match is `*<suffix>` with a
non-empty suffix, and an identifier ending with that suffix, with no
exact match anywhere and no earlier wildcard rule matching, the
wildcard pass returns the rule with capture equal to everything before
the suffix; and for captures containing neither `*` nor `$`, the
substitution equals plain replacement of every `$1` and then every `*`
by the capture.  (The source yields capture `""` when the suffix is
empty — `slice(0, -0)` — and re-substitutes `*` and `$`-sequences
introduced by the capture, hence both restrictions.) -/
theorem findMatchingTask_wildcard_capture
    (tasks pre post : List TaskRule) (r : TaskRule) (ident suffix : String)
    (hsplit : tasks = pre ++ r :: post)
    (hnoexact : ∀ r2 ∈ tasks, ¬(r2.«match» ≠ "" ∧ r2.«match» = ident))
    (hprew : ∀ r2 ∈ pre, r2.«match» = "" ∨ r2.«match».toList.contains '*' = false ∨
        matchPattern ident r2.«match» = none)
    (hr : r.«match» = "*" ++ suffix)
    (hsuffix : suffix ≠ "")
    (hends : suffix.toList.isSuffixOf ident.toList = true) :
    (findMatchingTask tasks ident
      = some (r, some ⟨ident.toList.take (ident.toList.length - suffix.toList.length)⟩)) ∧
    ((⟨ident.toList.take (ident.toList.length - suffix.toList.length)⟩ : String) ++ suffix
      = ident) ∧
    (∀ template capture, (∀ c ∈ capture.toList, c ≠ '$' ∧ c ≠ '*') →
      applySubstitutions template (some capture)
        = replaceAllPlain (replaceAllPlain template "$1" capture) "*" capture) := by
  have hlist : r.«match».toList = '*' :: suffix.toList := by
    rw [hr]
    show ("*" ++ suffix).data = '*' :: suffix.data
    rw [String.data_append]
    rfl
  have hrne : r.«match» ≠ "" := by
    intro h0
    rw [h0] at hlist
    exact List.noConfusion hlist
  have hrneq : r.«match» ≠ ident := fun h0 =>
    hnoexact r (by rw [hsplit]; exact List.mem_append_right _ (List.mem_cons_self r post))
      ⟨hrne, h0⟩
  have hsufne : suffix.toList ≠ [] := by
    intro h0
    apply hsuffix
    show suffix = ""
    have h1 : suffix.data = [] := h0
    cases suffix
    simp_all
  refine ⟨?_, ?_, ?_⟩
  · subst hsplit
    unfold findMatchingTask
    rw [if_neg (by simp : ¬((pre ++ r :: post).isEmpty = true))]
    have hfind : (pre ++ r :: post).find?
        (fun rule => rule.«match» != "" && rule.«match» == ident) = none := by
      rw [List.find?_eq_none]
      intro x hx
      simp only [Bool.and_eq_true, bne_iff_ne, beq_iff_eq, not_and]
      intro hx1 hx2
      exact hnoexact x hx ⟨hx1, hx2⟩
    have hskip : findWildcardTask ident (pre ++ r :: post) = findWildcardTask ident (r :: post) := by
      clear hfind
      induction pre with
      | nil => rfl
      | cons e t ih =>
        rw [List.cons_append, findWildcardTask_cons_skip ident e _ (hprew e (by simp))]
        exact ih (fun x hx => hprew x (by simp [hx]))
          (fun x hx => hnoexact x (by simp at hx ⊢; tauto))
    rw [hfind, hskip]
    have hcond : ¬(r.«match» = "" ∨ (!(r.«match».toList.contains '*')) = true) := by
      rw [hlist]
      simp [hrne]
    have hlen0 : ¬suffix.toList.length = 0 :=
      fun h0 => hsufne (List.length_eq_zero.mp h0)
    have hmp : matchPattern ident r.«match»
        = some (some ⟨ident.toList.take (ident.toList.length - suffix.toList.length)⟩) := by
      unfold matchPattern
      rw [if_neg hrneq, hlist]
      show (if ('*' : Char) = '*' then
          (if suffix.toList.isSuffixOf ident.toList then
            some (some (if suffix.toList.length = 0 then ""
              else ⟨ident.toList.take (ident.toList.length - suffix.toList.length)⟩))
          else none)
        else none) = _
      rw [if_pos rfl, if_pos hends, if_neg hlen0]
    show findWildcardTask ident (r :: post) = _
    conv_lhs => unfold findWildcardTask
    rw [if_neg hcond, hmp]
  · obtain ⟨t, ht⟩ : ∃ t, t ++ suffix.toList = ident.toList := by
      have h1 := List.isSuffixOf_iff_suffix.mp hends
      exact h1
    have htake : ident.toList.take (ident.toList.length - suffix.toList.length) = t := by
      rw [← ht, List.length_append, Nat.add_sub_cancel]
      exact List.take_left t suffix.toList
    rw [htake]
    show (⟨t ++ suffix.data⟩ : String) = ident
    have h2 : t ++ suffix.data = ident.data := ht
    rw [h2]
  · intro template capture hcap
    show jsReplaceAll (jsReplaceAll template "$1" capture) "*" capture
      = replaceAllPlain (replaceAllPlain template "$1" capture) "*" capture
    rw [jsReplaceAll_eq_plain template _ _ (fun c hc => (hcap c hc).1)]
    exact jsReplaceAll_eq_plain _ _ _ (fun c hc => (hcap c hc).1)

/-- C4 counterexample: with the single rule matching `*` and identifier
`abc`, the capture is the empty string (`slice(0, -0)`), not the whole
identifier; and with capture `p*q`, the template `$1` renders to
`pp*qq` (the `*` inserted by the first pass is substituted again), not
`p*q` — refuting the claim as stated. -/
theorem findMatchingTask_wildcard_capture_counterexample :
    findMatchingTask
        [{ name := "w", «match» := "*", action := "review", message := some "$1" }] "abc"
      = some
        ({ name := "w", «match» := "*", action := "review", message := some "$1" }, some "") ∧
    applySubstitutions "$1" (some "p*q") = "pp*qq" := by
  decide

/-- C4 witness: the specification's example — rules
`test-engineer`/skip then `*-engineer`/review, identifier
`python-engineer` — captures `python` and renders
`Invoke python-reviewer`. -/
theorem findMatchingTask_wildcard_capture_witness :
    findMatchingTask
      [{ name := "e", «match» := "test-engineer", action := "skip" },
       { name := "w", «match» := "*-engineer", action := "review",
         message := some "Invoke *-reviewer" }]
      "python-engineer"
      = some
        ({ name := "w", «match» := "*-engineer", action := "review",
             message := some "Invoke *-reviewer" },
         some "python") ∧
    applySubstitutions "Invoke *-reviewer" (some "python") = "Invoke python-reviewer" := by
  have h := findMatchingTask_wildcard_capture
    [{ name := "e", «match» := "test-engineer", action := "skip" },
     { name := "w", «match» := "*-engineer", action := "review",
       message := some "Invoke *-reviewer" }]
    [{ name := "e", «match» := "test-engineer", action := "skip" }]
    []
    { name := "w", «match» := "*-engineer", action := "review",
      message := some "Invoke *-reviewer" }
    "python-engineer" "-engineer"
    rfl (by decide) (by decide) (by decide) (by decide) (by decide)
  exact ⟨h.1.trans (by decide),
    (h.2.2 "Invoke *-reviewer" "python" (by decide)).trans (by decide)⟩

/-- C5 (amended): `validateConfig` accepts an empty `environments`
array.  For every configuration object whose `environments` field is
the empty array and which has no `tasks` or `git` field, validation
reports zero errors and zero warnings: emptiness is only enforced on
each environment's `paths` list, never on `environments` itself. -/
theorem validateConfig_empty_environments (regexCheck : String → Option String)
    (fields : List (String × Json))
    (henv : (Json.obj fields).get? "environments" = some (Json.arr []))
    (htasks : (Json.obj fields).get? "tasks" = none)
    (hgit : (Json.obj fields).get? "git" = none) :
    validateConfig regexCheck (Json.obj fields) = ([], []) := by
  unfold validateConfig
  rw [henv, htasks, hgit]
  simp [Json.truthy, Json.isObjectType, truthyOpt, validateEnvironmentArray, validateEnvsAux]

/-- C5 witness: the amended theorem at a concrete config with an empty
environments array (and one unrelated field). -/
theorem validateConfig_empty_environments_witness :
    validateConfig (fun _ => none)
      (Json.obj [("environments", Json.arr []), ("other", Json.num 1)]) = ([], []) :=
  validateConfig_empty_environments (fun _ => none)
    [("environments", Json.arr []), ("other", Json.num 1)] rfl rfl rfl

/-- C5 counterexample: the config whose `environments` field is the
empty array validates with an empty error list, refuting the claim that
at least one error is reported. -/
theorem validateConfig_empty_environments_counterexample :
    validateConfig (fun _ => none) (Json.obj [("environments", Json.arr [])]) = ([], []) := by
  decide

/-- C6: confirmed.  When the check's command resolves and the spawned
process exits with status zero, `runCheck` returns no diagnostics, for
every stdout/stderr the process may have produced (`exec` is
universally quantified); parsing only happens on failure. -/
theorem runCheck_success_no_diagnostics
    (cmdExists : String → Bool) (exec : String → List String → String → ExecResult)
    (builtins : String → Option (String → List Diag))
    (compile : String → Option (String → Option Groups))
    (check : Check) (filePath projectRoot : String)
    (hcmd : cmdExists check.command = true)
    (hstatus : (exec check.command (substituteArgs check.args filePath) projectRoot).success
      = true) :
    runCheck cmdExists exec builtins compile check filePath projectRoot = [] := by
  unfold runCheck
  rw [hcmd]
  simp [hstatus]

/-- C6 witness: a resolvable command whose process succeeds while
writing noise on both streams still yields no diagnostics. -/
theorem runCheck_success_no_diagnostics_witness :
    runCheck (fun _ => true)
      (fun _ _ _ => { success := true, stdout := "error: junk", stderr := "warning: junk" })
      (fun _ => none) (fun _ => none)
      { name := "c", command := "tool", args := ["$FILE"] } "f.py" "/root" = [] :=
  runCheck_success_no_diagnostics _ _ _ _ _ _ _ rfl rfl

/-- C7: confirmed.  An object parser specification whose pattern does
not compile (`compile pattern = none`, the modelled `new RegExp` throw)
makes `getParser` return the generic fallback, so parsing any output
equals the generic parser's result. -/
theorem getParser_invalid_regex_generic
    (builtins : String → Option (String → List Diag))
    (compile : String → Option (String → Option Groups))
    (pattern : String) (severity : Option String)
    (hbad : compile pattern = none) :
    ∀ output, getParser builtins compile (some (ParserSpec.obj pattern severity)) output
      = genericParser output := by
  intro output
  show (if pattern = "" then genericParser
    else match compile pattern with
      | some exec => createRegexParser exec severity
      | none => genericParser) output = genericParser output
  by_cases hp : pattern = ""
  · rw [if_pos hp]
  · rw [if_neg hp, hbad]

/-- C7 witness: the unbalanced pattern `(` with a compiler rejecting it
degrades to the generic parser on a concrete output. -/
theorem getParser_invalid_regex_generic_witness :
    getParser (fun _ => none) (fun _ => none) (some (ParserSpec.obj "(" none)) "boom"
      = genericParser "boom" :=
  getParser_invalid_regex_generic (fun _ => none) (fun _ => none) "(" none rfl "boom"

/-- C9: confirmed.  For a matched rule with action `message`, the hook
emits only a non-blocking system message naming the rule (`decision`
and `reason` are absent), and the output is independent of the rule's
message template — the substituted message is computed into an unused
local and appears in no field. -/
theorem dispatchTaskAction_message_nonblocking (rule : TaskRule) (capture : Option String)
    (m : Option String) (h : rule.action = "message") :
    dispatchTaskAction rule capture
      = some { decision := none, reason := none,
               systemMessage := some ("[checkmate] ℹ️ " ++ rule.name) } ∧
    dispatchTaskAction { rule with message := m } capture = dispatchTaskAction rule capture := by
  have hns : rule.action ≠ "skip" := by rw [h]; decide
  have ha : ({ rule with message := m } : TaskRule).action = "message" := h
  have hans : ({ rule with message := m } : TaskRule).action ≠ "skip" := hns
  constructor
  · unfold dispatchTaskAction
    rw [if_neg hns, if_pos h]
  · unfold dispatchTaskAction
    rw [if_neg hns, if_pos h, if_neg hans, if_pos ha]

/-- C9 witness: a concrete `message`-action rule emits exactly the
non-blocking system message, and changing its template to `other`
leaves the output unchanged. -/
theorem dispatchTaskAction_message_nonblocking_witness :
    dispatchTaskAction
      { name := "n", «match» := "x", action := "message", message := some "tmpl *" }
      (some "cap")
      = some { decision := none, reason := none,
               systemMessage := some ("[checkmate] ℹ️ " ++ "n") } ∧
    dispatchTaskAction
      { name := "n", «match» := "x", action := "message", message := some "other" }
      (some "cap")
      = dispatchTaskAction
        { name := "n", «match» := "x", action := "message", message := some "tmpl *" }
        (some "cap") :=
  dispatchTaskAction_message_nonblocking
    { name := "n", «match» := "x", action := "message", message := some "tmpl *" }
    (some "cap") (some "other") rfl

/-- C10: confirmed.  When the compiled pattern matches a line with a
non-empty `severity` capture, the emitted diagnostic's severity is the
captured text verbatim (no validation against error/warning); the
configured default severity is used exactly when the group is absent or
captured the empty string. -/
theorem createRegexParser_severity_verbatim
    (exec : String → Option Groups) (severity : Option String) (line : String) (g : Groups)
    (hg : exec line = some g) :
    (∀ s, g.severity = some s → s ≠ "" →
      (regexParserLine exec (defaultSeverityOf severity) line).map Diag.severity = some s) ∧
    ((g.severity = none ∨ g.severity = some "") →
      (regexParserLine exec (defaultSeverityOf severity) line).map Diag.severity
        = some (defaultSeverityOf severity)) := by
  constructor
  · intro s hs hne
    unfold regexParserLine
    rw [hg]
    simp [hs, hne]
  · intro hor
    unfold regexParserLine
    rw [hg]
    rcases hor with h | h <;> simp [h]

/-- C10 witness: a pattern capturing severity `fatal` (not in the
error/warning set) on line `L` yields a diagnostic whose severity is
`fatal` verbatim. -/
theorem createRegexParser_severity_verbatim_witness :
    (regexParserLine (fun l => if l = "L" then some { severity := some "fatal" } else none)
        (defaultSeverityOf none) "L").map Diag.severity = some "fatal" :=
  (createRegexParser_severity_verbatim
      (fun l => if l = "L" then some { severity := some "fatal" } else none)
      none "L" { severity := some "fatal" } (by decide)).1
    "fatal" rfl (by decide)

end Checkmate
